import Mathlib

/-!
A shallow embedding of the data-plane core of the timely-dataflow repository
(crates `timely`, `timely_communication`, `timely_container`, `timely_logging`),
together with theorems settling the frozen claims C1..C10 about it.

Conventions of the embedding:
* `Duration` values are modelled as nanosecond counts (`Nat`), matching the
  nanosecond arithmetic the source performs via `Duration::from_nanos` /
  `as_nanos`.
* Interior mutability (`Rc<RefCell<..>>`) becomes explicit state passing.
* A Rust slice indexed by `usize` is modelled as an index function `Nat → _`
  together with an explicit length where the length matters.
* Fallible operations (code that can panic) return `Option`.
-/

namespace Timely

/-- Modelled from the spec: `ChangeBatch<T>` (crate `timely`, module
`progress::change_batch`, not present under `src/`): "a shared `ChangeBatch<T>`
mapping timestamp → signed delta".  It buffers `(time, delta)` updates;
observationally it is the finitely supported map sending each time to the sum
of its deltas, and it `is_empty` exactly when every net delta is zero (the
source compacts the buffer before answering `is_empty`). -/
structure ChangeBatch (T : Type) where
  updates : List (T × Int)
deriving Repr, DecidableEq

namespace ChangeBatch

/-- Modelled from the spec: a freshly allocated, empty `ChangeBatch::new()`. -/
def new (T : Type) : ChangeBatch T := ⟨[]⟩

/-- Modelled from the spec: `ChangeBatch::update(time, delta)` records one
signed delta at one time. -/
def update (b : ChangeBatch T) (t : T) (d : Int) : ChangeBatch T :=
  ⟨b.updates ++ [(t, d)]⟩

/-- The observable content of a change batch: the net delta at time `t`. -/
def net [DecidableEq T] (b : ChangeBatch T) (t : T) : Int :=
  ((b.updates.filter (fun p => p.1 = t)).map (fun p => p.2)).sum

/-- Modelled from the spec: `ChangeBatch::is_empty`, which compacts the buffer
(summing deltas per time and discarding zeros) and tests emptiness; hence it
holds exactly when every net delta is zero. -/
def isEmpty [DecidableEq T] (b : ChangeBatch T) : Bool :=
  b.updates.all (fun p => b.net p.1 = 0)

/-- Modelled from the spec: `ChangeBatch::drain_into(other)` moves every
buffered update of `self` into `other`, leaving `self` empty.  Returns the pair
`(self, other)` after the call. -/
def drainInto (b other : ChangeBatch T) : ChangeBatch T × ChangeBatch T :=
  (⟨[]⟩, ⟨other.updates ++ b.updates⟩)

end ChangeBatch

/-- From `src/timely/src/dataflow/channels` (the `BundleCore`/`Message` bundle
carried on every channel, per the spec §3: "A bundle wraps a container together
with a timestamp `T`, a sequence number `seq`, and a source worker index
`from`").  The module defining the struct itself is not under `src/`; its
fields are taken from the spec and from their uses in
`pact.rs`/`counter.rs`. -/
structure Bundle (T : Type) (C : Type) where
  time : T
  data : C
  seq : Nat
  from_ : Nat
deriving Repr, DecidableEq

/-- From `src/timely/src/logging.rs` users in `pact.rs`: the
`MessagesEvent { is_send, channel, source, target, seq_no, length }` structured
log record emitted per bundle at both channel ends. -/
structure MessagesEvent where
  is_send : Bool
  channel : Nat
  source : Nat
  target : Nat
  seq_no : Nat
  length : Nat
deriving Repr, DecidableEq

/-! ### Containers of `src/communication/src/lib.rs`

The `Container` trait there exposes `len`, `is_empty` and `hollow`; the unit
and `usize` impls are claims C10's subject.  Each impl is translated as a
family of plain functions named `<type>_<method>`. -/

/-- From `impl Container for ()` (src/communication/src/lib.rs:186-199):
`len` returns `1`. -/
def unit_len (_ : Unit) : Nat := 1

/-- From `impl Container for ()` (src/communication/src/lib.rs:186-199):
`is_empty` returns `false`. -/
def unit_is_empty (_ : Unit) : Bool := false

/-- From `impl Container for ()` (src/communication/src/lib.rs:186-199):
`Allocation = ()` and `hollow` returns `()`. -/
def unit_hollow (_ : Unit) : Unit := ()

/-- From `impl Container for usize` (src/communication/src/lib.rs:261-274):
`len` returns `1`. -/
def usize_len (_ : Nat) : Nat := 1

/-- From `impl Container for usize` (src/communication/src/lib.rs:261-274):
`is_empty` returns `false`. -/
def usize_is_empty (_ : Nat) : Bool := false

/-- From `impl Container for usize` (src/communication/src/lib.rs:261-274):
`Allocation = ()` and `hollow` returns `()`. -/
def usize_hollow (_ : Nat) : Unit := ()

/-! ### Produce-side counter (C6)

From `src/timely/src/dataflow/channels/pushers/counter.rs`.  The wrapped
pushee is observed through the list of messages forwarded to it; the shared
`Rc<RefCell<ChangeBatch<T>>>` is explicit state.  The container is abstracted
by its `len` method (trait method `Container::len`), passed as a function. -/

/-- State of a `CounterCore<T, D, P>`: the shared `produced` change batch and
the messages forwarded so far to the wrapped pushee `P` (most recent last). -/
structure CounterCore (T : Type) (C : Type) where
  produced : ChangeBatch T
  pushee : List (Option (Bundle T C))
deriving Repr

/-- From `CounterCore::push` (src/timely/src/dataflow/channels/pushers/counter.rs:22-34):
on `Some(message)` update `produced` with `+len` at `message.time` and forward;
on `None` forward only if `produced` is non-empty ("only propagate `None` if
dirty"). -/
def CounterCore.push [DecidableEq T] (len : C → Nat)
    (st : CounterCore T C) (message : Option (Bundle T C)) : CounterCore T C :=
  let produced :=
    match message with
    | some m => st.produced.update m.time (len m.data : Int)
    | none => st.produced
  if message.isSome || !produced.isEmpty then
    { produced := produced, pushee := st.pushee ++ [message] }
  else
    { produced := produced, pushee := st.pushee }

/-! ### Consume-side counter (C7)

From `src/timely/src/dataflow/channels/pullers/counter.rs`.  A call to `next`
first pulls from the wrapped puller; the pulled result is passed in
explicitly, and the shared `consumed` batch is explicit state. -/

/-- From `Counter::next` (src/timely/src/dataflow/channels/pullers/counter.rs:18-31):
if the wrapped puller yields `Some(message)` with `message.data.len() > 0`,
record `+len` at `message.time` in `consumed` and return the message;
otherwise return `None` and leave `consumed` unchanged.  Result: the returned
value and the `consumed` batch after the call. -/
def pullCounterNext (len : C → Nat) (consumed : ChangeBatch T)
    (pulled : Option (Bundle T C)) : Option (Bundle T C) × ChangeBatch T :=
  match pulled with
  | some m =>
    if len m.data > 0 then
      (some m, consumed.update m.time (len m.data : Int))
    else
      (none, consumed)
  | none => (none, consumed)

/-! ### LogPusher (C5)

From `src/timely/src/dataflow/channels/pact.rs`.  The bundle type
`BundleCore` is defined outside `src/`; per the spec §3 and §4.5 a bundle on
the typed in-process path is uniquely owned, so `bundle.if_mut()` succeeds and
the stamp is applied (modelled from the spec: "Stamp outgoing bundles with
`seq` (per-pusher counter starting at 0) and `from = source_worker`"). -/

/-- State of a `LogPusher` (src/timely/src/dataflow/channels/pact.rs:94-117):
its configuration, its per-pusher `counter`, the bundles forwarded to the
wrapped pusher, and the `MessagesEvent`s emitted to the logger. -/
structure LogPusher (T : Type) (C : Type) where
  channel : Nat
  counter : Nat
  source : Nat
  target : Nat
  pusher : List (Option (Bundle T C))
  events : List MessagesEvent
deriving Repr

/-- From `LogPusher::new` (src/timely/src/dataflow/channels/pact.rs:104-117):
a fresh pusher has `counter = 0`. -/
def LogPusher.new (T C : Type) (source target channel : Nat) : LogPusher T C :=
  { channel := channel, counter := 0, source := source, target := target,
    pusher := [], events := [] }

/-- From `LogPusher::push` (src/timely/src/dataflow/channels/pact.rs:119-146):
on `Some(bundle)` increment `counter`, stamp `seq = counter - 1` and
`from = source`, log a `MessagesEvent` with `is_send = true` and
`seq_no = counter - 1`, then forward; `None` is forwarded unstamped and
unlogged. -/
def LogPusher.push (len : C → Nat) (st : LogPusher T C)
    (pair : Option (Bundle T C)) : LogPusher T C :=
  match pair with
  | some bundle =>
    let counter := st.counter + 1
    let stamped := { bundle with seq := counter - 1, from_ := st.source }
    let event : MessagesEvent :=
      { is_send := true, channel := st.channel, source := st.source,
        target := st.target, seq_no := counter - 1, length := len bundle.data }
    { st with counter := counter,
              pusher := st.pusher ++ [some stamped],
              events := st.events ++ [event] }
  | none =>
    { st with pusher := st.pusher ++ [none] }

/-- Fold a sequence of `push` calls through a `LogPusher`. -/
def LogPusher.pushAll (len : C → Nat) (st : LogPusher T C)
    (pairs : List (Option (Bundle T C))) : LogPusher T C :=
  pairs.foldl (fun s p => s.push len p) st

/-! ### Tee (C8)

From `src/timely/src/dataflow/channels/pushers/tee.rs`.  The shared downstream
list is observed through what each downstream receives during one `push`; a
bundle on this value level is its `(time, data)` payload (the first `n-1`
downstreams receive a freshly built deep copy — `Message::push_at` of a
builder initialized from `message.data`, reusing the carried allocation — and
the last receives the moved original; the payloads coincide). -/

/-- From `TeeCore::push` (src/timely/src/dataflow/channels/pushers/tee.rs:23-46),
with `n` registered downstream pushers: the list, indexed by downstream, of
what each downstream receives from this single call.  On `Some(message)`,
downstreams `0..n-2` receive a copy built from `message.data` with timestamp
`message.time.clone()`, and downstream `n-1` receives the original; on `None`,
every downstream receives `None`; with `n = 0` both loops and the final
`if pushers.len() > 0` body are skipped and nothing is delivered. -/
def TeeCore.push (n : Nat) (message : Option (T × C)) : List (Option (T × C)) :=
  match message with
  | some m =>
    (List.range (n - 1)).map (fun _ => some (m.1, m.2)) ++
      (if n > 0 then [some m] else [])
  | none =>
    (List.range (n - 1)).map (fun _ => none) ++
      (if n > 0 then [none] else [])

/-! ### Logger registry (C9)

From `src/logging/src/lib.rs:14-136`.  The `HashMap<String, (Box<dyn Any>,
Box<dyn Flush>)>` is modelled as an association list holding at most one
binding per key, which reproduces the `HashMap` contract.  A `Box<dyn Any>`
holding a
`Logger<T, Id>` is modelled as a pair of a type tag (for `T`) and a payload
value (the shared logger handle); `downcast_ref::<Logger<T, Id>>` succeeds
exactly when the stored tag equals the requested one. -/

/-- From `Registry` (src/logging/src/lib.rs:14-21): the name → typed-logger
map.  An entry `(name, (tag, handle))` stands for the pair
`(Box<dyn Any>, Box<dyn Flush>)` whose `Any` half holds a logger of the type
numbered `tag`. -/
structure Registry where
  map : List (String × (Nat × Nat))
deriving Repr, DecidableEq

namespace Registry

/-- From `Registry::new` (src/logging/src/lib.rs:124-130): an empty map. -/
def new : Registry := ⟨[]⟩

/-- Lookup of the unique binding for `name`, the model of `HashMap::get`. -/
def find (r : Registry) (name : String) : Option (Nat × Nat) :=
  (r.map.find? (fun e => e.1 = name)).map (·.2)

/-- From `Registry::insert_logger` (src/logging/src/lib.rs:97-103):
`self.map.insert(name, ..).map(|x| x.0)` — store the new binding and return
the previously installed `Box<dyn Any>` handle, if any. -/
def insert (r : Registry) (name : String) (tag handle : Nat) :
    Registry × Option (Nat × Nat) :=
  (⟨(name, (tag, handle)) :: r.map.filter (fun e => ¬ e.1 = name)⟩, r.find name)

/-- From `Registry::remove` (src/logging/src/lib.rs:111-113):
`self.map.remove(name).map(|x| x.0)` — drop the binding and return the
previously installed handle, if any. -/
def remove (r : Registry) (name : String) : Registry × Option (Nat × Nat) :=
  (⟨r.map.filter (fun e => ¬ e.1 = name)⟩, r.find name)

/-- From `Registry::get` (src/logging/src/lib.rs:116-121): look up `name`,
`downcast_ref::<Logger<T, Id>>` (succeeds exactly when the stored type tag is
the requested `tag`), and clone the typed logger.  A missing entry or a failed
downcast yields `None`. -/
def get (r : Registry) (name : String) (tag : Nat) : Option Nat :=
  match r.find name with
  | some (t, h) => if t = tag then some h else none
  | none => none

end Registry

/-! ### Logger core (C1)

From `src/logging/src/lib.rs`.  `Duration` is a nanosecond count; the vector
capacity of `entries` is carried explicitly.  The `overflow_action` closure
passed by `LoggerInner::log_many` invokes the bound action on the buffer,
clears `entries`, and reserves more capacity when below the default; the
containers handed to the action are recorded in a flush log. -/

/-- From `LogContainer` (src/logging/src/lib.rs:23-28): a base `time`
(nanoseconds) plus a vector of `(u32 offset, event)` entries, with its
explicit capacity. -/
structure LogContainer (T : Type) where
  time : Nat
  entries : List (Nat × T)
  capacity : Nat
deriving Repr, DecidableEq

/-- The nanosecond value of `u32::MAX`, as used by
`Duration::from_nanos(u32::MAX as u64)` in `LogContainer::push`. -/
def u32MAX : Nat := 2 ^ 32 - 1

/-- From `LogContainer::push` (src/logging/src/lib.rs:40-50), with the
overflow action of `LoggerInner::log_many` (src/logging/src/lib.rs:238-249)
inlined.  Faithful to the source order: the overflow test fires when the time
precedes the base, exceeds the base by more than `u32::MAX` nanoseconds, or
the vector is full; the overflow action emits the buffer, clears it and grows
a too-small capacity; then — unconditionally — `self.time = time` is executed,
the offset `time - self.time` is computed (from the already updated base), and
the entry is appended.  Returns the emitted container, if any, and the new
state.  `defaultCapacity` is `timely_container::buffer::default_capacity`
for the entry type. -/
def LogContainer.push (defaultCapacity : Nat) (c : LogContainer T)
    (time : Nat) (data : T) : Option (LogContainer T) × LogContainer T :=
  let overflow : Bool :=
    time < c.time || c.time + u32MAX < time ||
      c.entries.length == c.capacity
  let emitted : Option (LogContainer T) := if overflow then some c else none
  let c := if overflow then
      { c with entries := [],
               capacity := if c.capacity < defaultCapacity
                 then max c.capacity ((c.capacity + 1).nextPowerOfTwo)
                 else c.capacity }
    else c
  let c := { c with time := time }
  let offset := time - c.time
  (emitted, { c with entries := c.entries ++ [(offset, data)] })

/-- State of a `LoggerInner` (src/logging/src/lib.rs:160-170) observed through
its buffer and the containers flushed to the bound action so far. -/
structure LoggerState (T : Type) where
  buffer : LogContainer T
  flushed : List (LogContainer T)
deriving Repr, DecidableEq

/-- From `LoggerInner::log_many` (src/logging/src/lib.rs:229-251): with the
elapsed time `elapsed = self.time.elapsed() + self.offset` computed once, set
the buffer base to `elapsed` if the buffer is empty, then push every event at
time `elapsed`, collecting any containers emitted by the overflow action. -/
def LoggerState.logMany (defaultCapacity : Nat) (s : LoggerState T)
    (elapsed : Nat) (events : List T) : LoggerState T :=
  let s := if s.buffer.entries.isEmpty
    then { s with buffer := { s.buffer with time := elapsed } }
    else s
  events.foldl (fun s ev =>
    let (emitted, buffer) := s.buffer.push defaultCapacity elapsed ev
    { buffer := buffer,
      flushed := s.flushed ++ emitted.toList }) s

/-! ### Unordered input operator (C2)

From `src/timely/src/dataflow/operators/unordered_input_core.rs`.
`SharedProgress` (crate `timely`, module `progress::operate`, not under
`src/`) is modelled from the spec as the per-operator structure holding the
`internals` and `produceds` change batches for the single output port. -/

/-- From `UnorderedOperator`
(src/timely/src/dataflow/operators/unordered_input_core.rs:114-121): the
shared `internal` and `produced` batches, the single-output `SharedProgress`
(its `internals[0]` and `produceds[0]`), and the worker count `peers`. -/
structure UnorderedOperator (T : Type) where
  internal : ChangeBatch T
  produced : ChangeBatch T
  internals0 : ChangeBatch T
  produceds0 : ChangeBatch T
  peers : Nat
deriving Repr

/-- From `UnorderedOperator::schedule`
(src/timely/src/dataflow/operators/unordered_input_core.rs:126-131):
`self.internal.borrow_mut().drain_into(&mut shared_progress.internals[0])`
and likewise for `produced` into `produceds[0]`; the deltas move unchanged. -/
def UnorderedOperator.schedule (op : UnorderedOperator T) : UnorderedOperator T :=
  let (internal, internals0) := op.internal.drainInto op.internals0
  let (produced, produceds0) := op.produced.drainInto op.produceds0
  { op with internal := internal, internals0 := internals0,
            produced := produced, produceds0 := produceds0 }

/-- From `UnorderedOperator::get_internal_summary`
(src/timely/src/dataflow/operators/unordered_input_core.rs:138-144): drain
the `internal` batch and apply each `(time, count)` to `internals[0]` as
`count * (self.peers as i64)`. -/
def UnorderedOperator.getInternalSummary (op : UnorderedOperator T) :
    UnorderedOperator T :=
  { op with
    internal := ⟨[]⟩,
    internals0 :=
      op.internal.updates.foldl
        (fun b p => b.update p.1 (p.2 * (op.peers : Int))) op.internals0 }

/-! ### Zero-copy wrapper (C3)

From `src/container/src/zero_copy.rs`.  A `ZeroCopyWrapper` is observed
through the length of its shared byte buffer and its record `length`; the
region type parameter is phantom.  Operations that can panic return
`Option`. -/

/-- From `ZeroCopyWrapper` (src/container/src/zero_copy.rs:95-99): a shared
byte buffer (observed by its byte length) and a record count `length`. -/
structure ZeroCopyWrapper where
  bufferLen : Nat
  length : Nat
deriving Repr, DecidableEq

namespace ZeroCopyWrapper

/-- From `impl Default for ZeroCopyWrapper`
(src/container/src/zero_copy.rs:111-119): empty buffer, `length = 0`. -/
def default : ZeroCopyWrapper := ⟨0, 0⟩

/-- From `Container::len for ZeroCopyWrapper<FlatStack<R>>`
(src/container/src/zero_copy.rs:128-130): returns `self.length`; total. -/
def len (w : ZeroCopyWrapper) : Nat := w.length

/-- From `Container::is_empty` (default method,
src/container/src/lib.rs:35-37): `len() == 0`; total. -/
def is_empty (w : ZeroCopyWrapper) : Bool := w.len == 0

/-- From `Container::clear for ZeroCopyWrapper<FlatStack<R>>`
(src/container/src/zero_copy.rs:132-134): the body is `todo!()`, which panics
unconditionally ("not yet implemented"); a panicking call returns no normal
result, so the model is the constant `none`. -/
def clear (_ : ZeroCopyWrapper) : Option ZeroCopyWrapper := none

end ZeroCopyWrapper

/-! ### Partition primitive (C4)

From `src/container/src/lib.rs:199-235`, the blanket
`impl PushPartitioned for T` over `Container + PushContainer` with
`Item: PushInto`.  A `Vec`-like buffer is its element list plus its explicit
capacity; the `&mut [Self]` slice of per-target buffers is an index function.
`Vec::reserve(additional)` and the growth a `push` at full capacity performs
are modelled by Rust's amortized rule: the new capacity is the larger of
twice the old capacity and the required length.  The caller-supplied `flush`
callback is the exchange pusher's: it sends the buffer's contents downstream
and leaves the buffer empty; each callback invocation is recorded as a
`(target, capacity, contents)` triple. -/

/-- A `Vec`-like buffer: its contents and its capacity. -/
structure Buf (α : Type) where
  cap : Nat
  data : List α
deriving Repr, DecidableEq

/-- Rust `Vec::push` on the buffer model: append, growing a full buffer by
the amortized rule. -/
def Buf.vecPush (b : Buf α) (x : α) : Buf α :=
  if b.data.length < b.cap then { b with data := b.data ++ [x] }
  else { cap := max (2 * b.cap) (b.data.length + 1), data := b.data ++ [x] }

/-- From the `ensure_capacity` closure (src/container/src/lib.rs:217-223):
if the buffer's capacity is below `Self::preferred_capacity()`, reserve the
difference. -/
def Buf.ensureCapacity (preferred : Nat) (b : Buf α) : Buf α :=
  if b.cap < preferred then
    { b with cap := max (2 * b.cap) (b.data.length + (preferred - b.cap)) }
  else b

/-- One iteration of the loop in `push_partitioned`
(src/container/src/lib.rs:225-232): compute `index(datum)`, ensure capacity
of that buffer, push the datum into it, and flush it when its length reaches
its capacity.  Returns the updated buffers and the flush-callback invocations
`(target, capacity, contents)` of this iteration. -/
def ppStep (preferred : Nat) (f : α → Nat) (bufs : Nat → Buf α) (x : α) :
    (Nat → Buf α) × List (Nat × Nat × List α) :=
  let i := f x
  let b := (bufs i).ensureCapacity preferred
  let b := b.vecPush x
  if b.data.length = b.cap then
    (Function.update bufs i { b with data := [] }, [(i, b.cap, b.data)])
  else
    (Function.update bufs i b, [])

/-- The loop state transformer of `push_partitioned`: apply `ppStep` to the
buffers and append its flush-callback invocations to the record. -/
def ppFold (preferred : Nat) (f : α → Nat)
    (st : (Nat → Buf α) × List (Nat × Nat × List α)) (x : α) :
    (Nat → Buf α) × List (Nat × Nat × List α) :=
  ((ppStep preferred f st.1 x).1, st.2 ++ (ppStep preferred f st.1 x).2)

/-- From `push_partitioned` (src/container/src/lib.rs:212-234): drain every
element of the container through the loop in order, then `self.clear()`.
Returns the drained (now empty) container, the final buffers, and the ordered
list of flush-callback invocations. -/
def pushPartitioned (preferred : Nat) (c : List α) (bufs : Nat → Buf α)
    (f : α → Nat) : List α × (Nat → Buf α) × List (Nat × Nat × List α) :=
  let st := c.foldl (ppFold preferred f) (bufs, ([] : List (Nat × Nat × List α)))
  ([], st.1, st.2)

/-- The concatenated contents, in callback order, of the flushed batches
destined for target `i`. -/
def flushedFor (flushes : List (Nat × Nat × List α)) (i : Nat) : List α :=
  ((flushes.filter (fun e => e.1 = i)).map (fun e => e.2.2)).flatten

/-- Invariant of a `LogPusher` maintained by `push`: events carry the
sequence numbers `0, 1, ..., counter - 1` in order, the bundles forwarded so
far carry the same stamped sequence, every forwarded bundle is stamped with
the pusher's source, and every event carries the pusher's configuration. -/
def LogPusher.inv (st : LogPusher T C) : Prop :=
  st.events.map (fun e => e.seq_no) = List.range st.counter ∧
  (st.pusher.filterMap id).map (fun b => b.seq) = List.range st.counter ∧
  (∀ b ∈ st.pusher.filterMap id, b.from_ = st.source) ∧
  (∀ e ∈ st.events, e.is_send = true ∧ e.channel = st.channel ∧
    e.source = st.source ∧ e.target = st.target)

end Timely

namespace Timely

/-! ## Helper lemmas (shared) -/

theorem ChangeBatch.net_nil [DecidableEq T] (t : T) :
    (ChangeBatch.mk ([] : List (T × Int))).net t = 0 := rfl

theorem ChangeBatch.net_append [DecidableEq T] (l1 l2 : List (T × Int)) (t : T) :
    (ChangeBatch.mk (l1 ++ l2)).net t
      = (ChangeBatch.mk l1).net t + (ChangeBatch.mk l2).net t := by
  simp [ChangeBatch.net, List.filter_append]

theorem ChangeBatch.net_update [DecidableEq T] (b : ChangeBatch T) (s t : T)
    (d : Int) : (b.update s d).net t = b.net t + if s = t then d else 0 := by
  rcases b with ⟨l⟩
  rw [ChangeBatch.update, ChangeBatch.net_append]
  congr 1
  simp [ChangeBatch.net, List.filter_cons]
  split <;> simp_all

theorem ChangeBatch.net_cons [DecidableEq T] (p : T × Int)
    (l : List (T × Int)) (t : T) :
    (ChangeBatch.mk (p :: l)).net t
      = (if p.1 = t then p.2 else 0) + (ChangeBatch.mk l).net t := by
  simp [ChangeBatch.net, List.filter_cons]
  split <;> simp_all

theorem ChangeBatch.net_foldl_update_mul [DecidableEq T]
    (l : List (T × Int)) (k : Int) (t : T) : ∀ b : ChangeBatch T,
    (l.foldl (fun b p => b.update p.1 (p.2 * k)) b).net t
      = b.net t + k * (ChangeBatch.mk l).net t := by
  induction l with
  | nil => intro b; simp [ChangeBatch.net_nil]
  | cons p l ih =>
    intro b
    rw [List.foldl_cons, ih, ChangeBatch.net_update, ChangeBatch.net_cons]
    split <;> ring

/-! ## Claim theorems -/

/-- C1 (code bug): `LogContainer::push` executes `self.time = time`
unconditionally before computing the stored offset as
`time.as_nanos() - self.time.as_nanos()`, so the base is rebased on every
push and the stored offset is always `0`.  Concretely: with buffer capacity 4,
logging event `10` at elapsed 5 ns and then event `11` at elapsed 7 ns
triggers no flush, yet leaves the buffer with base 7 ns and entries
`[(0, 10), (0, 11)]` — the first entry now reconstructs to 7 ns, not the 5 ns
at which it was logged.  The claim (and spec §4.9 step 5) requires base 5 ns
and entries `[(0, 10), (2, 11)]`. -/
theorem logContainer_rebases_every_push :
    LoggerState.logMany 4 (LoggerState.logMany 4 ⟨⟨0, [], 4⟩, []⟩ 5 [10]) 7 [11]
      = ⟨⟨7, [(0, 10), (0, 11)], 4⟩, []⟩ := by decide

/-- C2 (counterexample): `UnorderedOperator::schedule` does not multiply the
drained internal capability deltas by `peers`.  With `peers = 2` and a single
pending delta `(0, +1)`, the claim predicts `internals[0]` to receive net
`+2` at time `0`; the code's `drain_into` moves the delta unchanged, so the
net is `+1`. -/
theorem unordered_schedule_not_scaled :
    ((UnorderedOperator.schedule (T := Nat)
        ⟨⟨[(0, 1)]⟩, ⟨[]⟩, ⟨[]⟩, ⟨[]⟩, 2⟩).internals0.net 0 = 1) ∧
    ¬ ((UnorderedOperator.schedule (T := Nat)
        ⟨⟨[(0, 1)]⟩, ⟨[]⟩, ⟨[]⟩, ⟨[]⟩, 2⟩).internals0.net 0 = 1 * 2) := by
  decide

/-- C2 (amended): `UnorderedOperator::schedule` drains each pending internal
capability delta `(t, c)` into `shared_progress.internals[0]` unchanged (as
`(t, c)`, not `(t, c * peers)`) and each pending produced count into
`produceds[0]` unchanged, emptying both pending batches; the multiplication
by `peers` is applied only by `get_internal_summary`, which drains the
pending internal deltas into `internals[0]` as `(t, c * peers)` when the
operator's initial summary is taken. -/
theorem unordered_schedule_and_summary_spec [DecidableEq T]
    (op : UnorderedOperator T) (t : T) :
    (op.schedule.internals0.net t = op.internals0.net t + op.internal.net t) ∧
    (op.schedule.produceds0.net t = op.produceds0.net t + op.produced.net t) ∧
    op.schedule.internal.updates = [] ∧
    op.schedule.produced.updates = [] ∧
    op.schedule.peers = op.peers ∧
    (op.getInternalSummary.internals0.net t
      = op.internals0.net t + (op.peers : Int) * op.internal.net t) ∧
    op.getInternalSummary.internal.updates = [] := by
  rcases op with ⟨⟨li⟩, ⟨lp⟩, ⟨li0⟩, ⟨lp0⟩, peers⟩
  refine ⟨?_, ?_, rfl, rfl, rfl, ?_, rfl⟩
  · exact ChangeBatch.net_append li0 li t
  · exact ChangeBatch.net_append lp0 lp t
  · have h := ChangeBatch.net_foldl_update_mul li (peers : Int) t ⟨li0⟩
    simpa [UnorderedOperator.getInternalSummary] using h

/-- C3 (code bug): `Container::clear` for `ZeroCopyWrapper<FlatStack<R>>` is
`todo!()`, which panics unconditionally ("not yet implemented"); it never
returns normally, on the default wrapper or any other, contradicting the
claim that the data-plane container operations are total. -/
theorem zeroCopy_clear_never_returns :
    ZeroCopyWrapper.clear ZeroCopyWrapper.default = none ∧
    ∀ w : ZeroCopyWrapper, ZeroCopyWrapper.clear w = none :=
  ⟨rfl, fun _ => rfl⟩

/-- C6: `CounterCore::push` of `Some(message)` adds `+len(message.data)` at
`message.time` to the shared `produced` batch and always forwards the message
to the wrapped pushee; a push of `None` leaves `produced` unchanged and is
forwarded exactly when `produced` is non-empty at that moment. -/
theorem counterCore_push_spec [DecidableEq T] (len : C → Nat)
    (st : CounterCore T C) (m : Bundle T C) (t : T) :
    ((CounterCore.push len st (some m)).produced.net t
      = st.produced.net t + (if m.time = t then (len m.data : Int) else 0)) ∧
    ((CounterCore.push len st (some m)).pushee = st.pushee ++ [some m]) ∧
    ((CounterCore.push len st none).produced = st.produced) ∧
    ((CounterCore.push len st none).pushee
      = if st.produced.isEmpty then st.pushee else st.pushee ++ [none]) := by
  refine ⟨?_, ?_, ?_, ?_⟩
  · simp [CounterCore.push, ChangeBatch.net_update]
  · simp [CounterCore.push]
  · simp only [CounterCore.push]
    split <;> rfl
  · simp only [CounterCore.push, Option.isSome_none, Bool.false_or]
    rcases h : st.produced.isEmpty <;> simp [h]

/-- C7: the consume-side `Counter::next` returns `Some` exactly when the
wrapped puller yields a bundle with positive data length, in which case it
adds `+len` at the bundle's timestamp to the shared `consumed` batch; on no
bundle, or a length-0 bundle, it returns `None` and leaves `consumed`
unchanged. -/
theorem pullCounter_next_spec (len : C → Nat) (consumed : ChangeBatch T)
    (pulled : Option (Bundle T C)) :
    ((pullCounterNext len consumed pulled).1.isSome
      ↔ ∃ m, pulled = some m ∧ 0 < len m.data) ∧
    (∀ m, pulled = some m → 0 < len m.data →
      pullCounterNext len consumed pulled
        = (some m, consumed.update m.time (len m.data : Int))) ∧
    (∀ m, pulled = some m → len m.data = 0 →
      pullCounterNext len consumed pulled = (none, consumed)) ∧
    (pulled = none → pullCounterNext len consumed pulled = (none, consumed)) := by
  rcases pulled with _ | m
  · simp [pullCounterNext]
  · by_cases h : 0 < len m.data
    · simp [pullCounterNext, h]
      omega
    · simp [pullCounterNext, h]
      omega

/-- Witness for C7: pulling the bundle `⟨3, 5, 0, 0⟩` through a counter with
the `usize` container length (`len = 1 > 0`) returns the bundle and records
`+1` at time 3. -/
theorem pullCounter_next_spec_witness :
    (some (⟨3, 5, 0, 0⟩ : Bundle Nat Nat) = some ⟨3, 5, 0, 0⟩) ∧
    0 < usize_len 5 ∧
    pullCounterNext usize_len (ChangeBatch.new Nat) (some ⟨3, 5, 0, 0⟩)
      = (some ⟨3, 5, 0, 0⟩, (ChangeBatch.new Nat).update 3 (usize_len 5 : Int)) :=
  ⟨rfl, by decide,
    (pullCounter_next_spec usize_len (ChangeBatch.new Nat)
      (some ⟨3, 5, 0, 0⟩)).2.1 ⟨3, 5, 0, 0⟩ rfl (by decide)⟩

theorem LogPusher.push_fields (len : C → Nat) (st : LogPusher T C)
    (p : Option (Bundle T C)) :
    (st.push len p).source = st.source ∧ (st.push len p).channel = st.channel ∧
    (st.push len p).target = st.target := by
  rcases p with _ | b
  · exact ⟨rfl, rfl, rfl⟩
  · exact ⟨rfl, rfl, rfl⟩

theorem LogPusher.push_inv (len : C → Nat) (st : LogPusher T C)
    (p : Option (Bundle T C)) (h : st.inv) : (st.push len p).inv := by
  obtain ⟨h1, h2, h3, h4⟩ := h
  rcases p with _ | b
  · refine ⟨h1, ?_, ?_, h4⟩
    · simpa [LogPusher.push, List.filterMap_append] using h2
    · simpa [LogPusher.push, List.filterMap_append] using h3
  · refine ⟨?_, ?_, ?_, ?_⟩
    · simp [LogPusher.push, List.range_succ, h1]
    · simp [LogPusher.push, List.filterMap_append, List.range_succ, h2]
    · intro x hx
      simp only [LogPusher.push, List.filterMap_append] at hx
      rcases List.mem_append.mp hx with hx | hx
      · exact h3 x hx
      · simp only [List.filterMap, Option.some.injEq] at hx
        simp at hx
        subst hx
        rfl
    · intro e he
      simp only [LogPusher.push, List.mem_append] at he
      rcases he with he | he
      · exact h4 e he
      · simp at he
        subst he
        exact ⟨rfl, rfl, rfl, rfl⟩

theorem LogPusher.pushAll_inv (len : C → Nat)
    (pairs : List (Option (Bundle T C))) : ∀ st : LogPusher T C, st.inv →
    ((st.pushAll len pairs).inv ∧
      (st.pushAll len pairs).source = st.source ∧
      (st.pushAll len pairs).channel = st.channel ∧
      (st.pushAll len pairs).target = st.target ∧
      (st.pushAll len pairs).counter
        = st.counter + pairs.countP (fun p => p.isSome)) := by
  induction pairs with
  | nil => intro st h; exact ⟨h, rfl, rfl, rfl, by simp [LogPusher.pushAll]⟩
  | cons p rest ih =>
    intro st h
    have hstep := LogPusher.push_fields len st p
    have hinv := LogPusher.push_inv len st p h
    have hrec := ih (st.push len p) hinv
    have hcounter : (st.push len p).counter
        = st.counter + (if p.isSome then 1 else 0) := by
      rcases p with _ | b <;> simp [LogPusher.push]
    refine ⟨hrec.1, ?_, ?_, ?_, ?_⟩
    · rw [LogPusher.pushAll] at hrec ⊢
      simp only [List.foldl_cons]
      rw [hrec.2.1, hstep.1]
    · rw [LogPusher.pushAll] at hrec ⊢
      simp only [List.foldl_cons]
      rw [hrec.2.2.1, hstep.2.1]
    · rw [LogPusher.pushAll] at hrec ⊢
      simp only [List.foldl_cons]
      rw [hrec.2.2.2.1, hstep.2.2]
    · rw [LogPusher.pushAll] at hrec ⊢
      simp only [List.foldl_cons]
      rw [hrec.2.2.2.2, hcounter, List.countP_cons]
      rcases p with _ | b
      · simp
      · simp
        omega

/-- C5: pushing any sequence of calls through a fresh `LogPusher` increments
the per-pusher counter by exactly one per `Some` bundle; the stamped `seq`
values on the forwarded bundles form the gap-free strictly increasing
sequence `0, 1, ..., counter - 1`, every forwarded bundle is stamped with
`from = source`, and the `MessagesEvent` logged for the k-th `Some` push
carries `seq_no = k - 1` (the events' `seq_no`s are `0, 1, ...` in order)
with the pusher's channel, source and target. -/
theorem logPusher_seq_spec (len : C → Nat) (source target channel : Nat)
    (pairs : List (Option (Bundle T C))) :
    let st := LogPusher.pushAll len (LogPusher.new T C source target channel) pairs
    st.counter = pairs.countP (fun p => p.isSome) ∧
    st.events.map (fun e => e.seq_no) = List.range st.counter ∧
    (st.pusher.filterMap id).map (fun b => b.seq) = List.range st.counter ∧
    (∀ b ∈ st.pusher.filterMap id, b.from_ = source) ∧
    (∀ e ∈ st.events, e.is_send = true ∧ e.channel = channel ∧
      e.source = source ∧ e.target = target) := by
  intro st
  have hnew : (LogPusher.new T C source target channel).inv := by
    refine ⟨by simp [LogPusher.new], by simp [LogPusher.new], ?_, ?_⟩
    · intro b hb; simp [LogPusher.new] at hb
    · intro e he; simp [LogPusher.new] at he
  have h := LogPusher.pushAll_inv len pairs
    (LogPusher.new T C source target channel) hnew
  obtain ⟨⟨h1, h2, h3, h4⟩, hs, hc, ht, hcount⟩ := h
  refine ⟨?_, h1, h2, ?_, ?_⟩
  · simpa [LogPusher.new] using hcount
  · intro b hb
    have := h3 b hb
    rwa [hs] at this
  · intro e he
    have := h4 e he
    rw [hs, hc, ht] at this
    exact this

/-- C8: `TeeCore::push` with `n` registered downstreams delivers, on
`Some(message)`, a batch with the original's payload `(time, data)` to every
one of the `n` downstreams (the first `n - 1` as freshly built deep copies,
the last as the moved original — payloads coincide); on `None` every
downstream receives `None`; and with `n = 0` nothing is delivered and the
call still returns (silent drop, no panic). -/
theorem teeCore_push_spec (n : Nat) (m : T × C) :
    TeeCore.push n (some m) = List.replicate n (some m) ∧
    TeeCore.push (T := T) (C := C) n none = List.replicate n none ∧
    (∀ msg : Option (T × C), TeeCore.push 0 msg = []) := by
  refine ⟨?_, ?_, ?_⟩
  · rcases n with _ | k
    · simp [TeeCore.push]
    · simp [TeeCore.push, List.map_const, List.replicate_succ']
  · rcases n with _ | k
    · simp [TeeCore.push]
    · simp [TeeCore.push, List.map_const, List.replicate_succ']
  · intro msg
    rcases msg with _ | p <;> simp [TeeCore.push]

/-- C9: `Registry::get::<T>(name)` returns `Some` (the installed handle)
exactly when a logger of matching type tag is installed under `name`; a
missing entry or a type mismatch yields `None` (never a crash — `get` is a
total function); and `insert`/`remove` each return the previously installed
handle for that name, if any. -/
theorem registry_spec (r : Registry) (name : String) (tag handle : Nat) :
    (∀ h, r.get name tag = some h ↔ r.find name = some (tag, h)) ∧
    (r.find name = none → r.get name tag = none) ∧
    (∀ t0 h0, r.find name = some (t0, h0) → t0 ≠ tag → r.get name tag = none) ∧
    ((r.insert name tag handle).2 = r.find name) ∧
    ((r.remove name).2 = r.find name) := by
  refine ⟨?_, ?_, ?_, rfl, rfl⟩
  · intro h
    rcases hf : r.find name with _ | ⟨t0, h0⟩
    · simp [Registry.get, hf]
    · by_cases ht : t0 = tag
      · subst ht
        simp [Registry.get, hf]
      · simp [Registry.get, hf, ht]
  · intro hf
    simp [Registry.get, hf]
  · intro t0 h0 hf ht
    simp [Registry.get, hf, ht]

/-- Witness for C9: in the registry holding tag 1, handle 7 under "timely",
`get` with the matching tag 1 returns handle 7, a lookup with tag 2 fails,
and `insert`/`remove` return the previous binding. -/
theorem registry_spec_witness :
    ((Registry.mk [("timely", (1, 7))]).get "timely" 1 = some 7
      ↔ (Registry.mk [("timely", (1, 7))]).find "timely" = some (1, 7)) ∧
    ((Registry.mk [("timely", (1, 7))]).find "timely" = some (1, 7)) ∧
    ((1 : Nat) ≠ 2) ∧
    ((Registry.mk [("timely", (1, 7))]).get "timely" 2 = none) :=
  ⟨(registry_spec (Registry.mk [("timely", (1, 7))]) "timely" 1 7).1 7,
    by decide, by decide,
    (registry_spec (Registry.mk [("timely", (1, 7))]) "timely" 2 7).2.2.1
      1 7 (by decide) (by decide)⟩

theorem Buf.ensureCapacity_data (preferred : Nat) (b : Buf α) :
    (b.ensureCapacity preferred).data = b.data := by
  simp only [Buf.ensureCapacity]
  split <;> rfl

theorem Buf.vecPush_data (b : Buf α) (x : α) :
    (b.vecPush x).data = b.data ++ [x] := by
  simp only [Buf.vecPush]
  split <;> rfl

theorem flushedFor_nil (i : Nat) :
    flushedFor ([] : List (Nat × Nat × List α)) i = [] := rfl

theorem flushedFor_append (l1 l2 : List (Nat × Nat × List α)) (i : Nat) :
    flushedFor (l1 ++ l2) i = flushedFor l1 i ++ flushedFor l2 i := by
  simp [flushedFor, List.filter_append]

theorem flushedFor_single (e : Nat × Nat × List α) (i : Nat) :
    flushedFor [e] i = if e.1 = i then e.2.2 else [] := by
  simp only [flushedFor, List.filter_cons, List.filter_nil]
  split <;> simp_all

theorem ppStep_router (preferred : Nat) (f : α → Nat) (bufs : Nat → Buf α)
    (x : α) (i : Nat) :
    flushedFor (ppStep preferred f bufs x).2 i
        ++ ((ppStep preferred f bufs x).1 i).data
      = (bufs i).data ++ (if f x = i then [x] else []) := by
  by_cases hi : f x = i
  · subst hi
    simp only [ppStep]
    split
    · simp [flushedFor_single, Buf.vecPush_data, Buf.ensureCapacity_data]
    · simp [flushedFor_nil, Buf.vecPush_data, Buf.ensureCapacity_data]
  · simp only [ppStep]
    split
    · simp [flushedFor_single, hi, Function.update_noteq (Ne.symm hi)]
    · simp [flushedFor_nil, hi, Function.update_noteq (Ne.symm hi)]

theorem ppFold_foldl_acc (preferred : Nat) (f : α → Nat) (c : List α) :
    ∀ (bufs : Nat → Buf α) (fl : List (Nat × Nat × List α)),
    (c.foldl (ppFold preferred f) (bufs, fl)).1
        = (c.foldl (ppFold preferred f) (bufs, [])).1 ∧
    (c.foldl (ppFold preferred f) (bufs, fl)).2
        = fl ++ (c.foldl (ppFold preferred f) (bufs, [])).2 := by
  induction c with
  | nil => intro bufs fl; simp
  | cons x rest ih =>
    intro bufs fl
    simp only [List.foldl_cons]
    have e1 : ppFold preferred f (bufs, fl) x
        = ((ppStep preferred f bufs x).1,
            fl ++ (ppStep preferred f bufs x).2) := rfl
    have e2 : ppFold preferred f (bufs, []) x
        = ((ppStep preferred f bufs x).1, (ppStep preferred f bufs x).2) := by
      simp [ppFold]
    rw [e1, e2]
    have h1 := ih (ppStep preferred f bufs x).1
      (fl ++ (ppStep preferred f bufs x).2)
    have h2 := ih (ppStep preferred f bufs x).1 (ppStep preferred f bufs x).2
    exact ⟨h1.1.trans h2.1.symm,
      by rw [h1.2, h2.2, List.append_assoc]⟩

theorem ppFold_router (preferred : Nat) (f : α → Nat) (c : List α) :
    ∀ (bufs : Nat → Buf α) (i : Nat),
    flushedFor (c.foldl (ppFold preferred f) (bufs, [])).2 i
        ++ ((c.foldl (ppFold preferred f) (bufs, [])).1 i).data
      = (bufs i).data ++ c.filter (fun x => f x = i) := by
  induction c with
  | nil => intro bufs i; simp [flushedFor_nil]
  | cons x rest ih =>
    intro bufs i
    simp only [List.foldl_cons]
    have e2 : ppFold preferred f (bufs, []) x
        = ((ppStep preferred f bufs x).1, (ppStep preferred f bufs x).2) := by
      simp [ppFold]
    rw [e2]
    have hacc := ppFold_foldl_acc preferred f rest
      (ppStep preferred f bufs x).1 (ppStep preferred f bufs x).2
    rw [hacc.1, hacc.2, flushedFor_append, List.append_assoc,
      ih (ppStep preferred f bufs x).1 i, ← List.append_assoc,
      ppStep_router preferred f bufs x i, List.append_assoc, List.filter_cons]
    by_cases hi : f x = i <;> simp [hi]

theorem ppFold_flush_len (preferred : Nat) (f : α → Nat) (c : List α) :
    ∀ (bufs : Nat → Buf α),
    ∀ e ∈ (c.foldl (ppFold preferred f) (bufs, [])).2, e.2.2.length = e.2.1 := by
  induction c with
  | nil => intro bufs e he; simp at he
  | cons x rest ih =>
    intro bufs e he
    simp only [List.foldl_cons] at he
    have e2 : ppFold preferred f (bufs, []) x
        = ((ppStep preferred f bufs x).1, (ppStep preferred f bufs x).2) := by
      simp [ppFold]
    rw [e2] at he
    have hacc := ppFold_foldl_acc preferred f rest
      (ppStep preferred f bufs x).1 (ppStep preferred f bufs x).2
    rw [hacc.2] at he
    rcases List.mem_append.mp he with he | he
    · simp only [ppStep] at he
      split at he
      · rename_i hcond
        simp at he
        subst he
        exact hcond
      · simp at he
    · exact ih (ppStep preferred f bufs x).1 e he

theorem ppStep_flush_iff (preferred : Nat) (f : α → Nat) (g : Nat → Buf α)
    (x : α) :
    ((ppStep preferred f g x).2
        = [(f x, (((g (f x)).ensureCapacity preferred).vecPush x).cap,
            (((g (f x)).ensureCapacity preferred).vecPush x).data)]
      ↔ (((g (f x)).ensureCapacity preferred).vecPush x).data.length
          = (((g (f x)).ensureCapacity preferred).vecPush x).cap) ∧
    ((ppStep preferred f g x).2 = []
      ↔ ¬ (((g (f x)).ensureCapacity preferred).vecPush x).data.length
          = (((g (f x)).ensureCapacity preferred).vecPush x).cap) := by
  simp only [ppStep]
  split
  · rename_i h
    simp [h]
  · rename_i h
    simp [h]

theorem ppFold_decompose (preferred : Nat) (f : α → Nat) (p : List α) (x : α)
    (s : List α) (bufs : Nat → Buf α) :
    ((p ++ x :: s).foldl (ppFold preferred f) (bufs, [])).2
      = (p.foldl (ppFold preferred f) (bufs, [])).2
        ++ (ppStep preferred f (p.foldl (ppFold preferred f) (bufs, [])).1 x).2
        ++ (s.foldl (ppFold preferred f)
            ((ppStep preferred f
              (p.foldl (ppFold preferred f) (bufs, [])).1 x).1, [])).2 := by
  rw [List.foldl_append, List.foldl_cons]
  have e : ppFold preferred f (p.foldl (ppFold preferred f) (bufs, [])) x
      = ((ppStep preferred f (p.foldl (ppFold preferred f) (bufs, [])).1 x).1,
          (p.foldl (ppFold preferred f) (bufs, [])).2
            ++ (ppStep preferred f
              (p.foldl (ppFold preferred f) (bufs, [])).1 x).2) := rfl
  rw [e]
  have hacc := ppFold_foldl_acc preferred f s
    (ppStep preferred f (p.foldl (ppFold preferred f) (bufs, [])).1 x).1
    ((p.foldl (ppFold preferred f) (bufs, [])).2
      ++ (ppStep preferred f (p.foldl (ppFold preferred f) (bufs, [])).1 x).2)
  rw [hacc.2]

theorem sum_filter_length (f : α → Nat) (n : Nat) :
    ∀ c : List α, (∀ x ∈ c, f x < n) →
    (∑ i ∈ Finset.range n, (c.filter (fun x => f x = i)).length) = c.length := by
  intro c
  induction c with
  | nil => intro _; simp
  | cons x rest ih =>
    intro hb
    have hx : f x ∈ Finset.range n :=
      Finset.mem_range.mpr (hb x (List.mem_cons_self x rest))
    have hpt : ∀ i, ((x :: rest).filter (fun y => f y = i)).length
        = (if f x = i then 1 else 0) + (rest.filter (fun y => f y = i)).length := by
      intro i
      by_cases h : f x = i
      · simp [List.filter_cons, h]
        omega
      · simp [List.filter_cons, h]
    calc (∑ i ∈ Finset.range n, ((x :: rest).filter (fun y => f y = i)).length)
        = ∑ i ∈ Finset.range n, ((if f x = i then 1 else 0)
            + (rest.filter (fun y => f y = i)).length) :=
          Finset.sum_congr rfl (fun i _ => hpt i)
      _ = (∑ i ∈ Finset.range n, (if f x = i then 1 else 0))
            + ∑ i ∈ Finset.range n, (rest.filter (fun y => f y = i)).length :=
          Finset.sum_add_distrib
      _ = 1 + rest.length := by
          rw [Finset.sum_ite_eq, if_pos hx,
            ih (fun y hy => hb y (List.mem_cons_of_mem x hy))]
      _ = (x :: rest).length := by simp [Nat.add_comm]

/-- C4: `push_partitioned` drains the container (it is empty on return);
every element `x` is appended to buffer `f x` and to no other, preserving
the drain order per target — the flushed batches for target `i`, in callback
order, followed by buffer `i`'s final contents equal buffer `i`'s initial
contents followed by the elements of `c` routed to `i`; each flush-callback
invocation hands over a batch whose length had reached the buffer's capacity;
the total number of elements across all buffers and flushed batches equals
the initial total plus `len(c)` — no element duplicated or dropped; and the
flush callback is invoked exactly when a buffer's length reaches its
capacity: the call's flush record decomposes step by step over `c`, and the
step handling `x` (after any prefix `p`) contributes exactly one invocation —
handing over buffer `f x`'s entire contents at that moment — if and only if
that buffer's length equals its capacity after `x` is pushed, and contributes
none otherwise. -/
theorem push_partitioned_spec (preferred : Nat) (c : List α)
    (bufs : Nat → Buf α) (f : α → Nat) (n : Nat) (hf : ∀ x ∈ c, f x < n) :
    (pushPartitioned preferred c bufs f).1 = [] ∧
    (∀ i, flushedFor (pushPartitioned preferred c bufs f).2.2 i
        ++ ((pushPartitioned preferred c bufs f).2.1 i).data
      = (bufs i).data ++ c.filter (fun x => f x = i)) ∧
    (∀ e ∈ (pushPartitioned preferred c bufs f).2.2, e.2.2.length = e.2.1) ∧
    ((∑ i ∈ Finset.range n,
        ((flushedFor (pushPartitioned preferred c bufs f).2.2 i).length
          + ((pushPartitioned preferred c bufs f).2.1 i).data.length))
      = (∑ i ∈ Finset.range n, (bufs i).data.length) + c.length) ∧
    (∀ p x s, c = p ++ x :: s →
      let g := (p.foldl (ppFold preferred f) (bufs, [])).1
      let b := ((g (f x)).ensureCapacity preferred).vecPush x
      ((pushPartitioned preferred c bufs f).2.2
          = (p.foldl (ppFold preferred f) (bufs, [])).2
            ++ (ppStep preferred f g x).2
            ++ (s.foldl (ppFold preferred f) ((ppStep preferred f g x).1, [])).2) ∧
      ((ppStep preferred f g x).2 = [(f x, b.cap, b.data)]
        ↔ b.data.length = b.cap) ∧
      ((ppStep preferred f g x).2 = [] ↔ ¬ b.data.length = b.cap)) := by
  refine ⟨rfl, ?_, ?_, ?_, ?_⟩
  · intro i
    exact ppFold_router preferred f c bufs i
  · intro e he
    exact ppFold_flush_len preferred f c bufs e he
  · have hlen : ∀ i, (flushedFor (pushPartitioned preferred c bufs f).2.2 i).length
        + ((pushPartitioned preferred c bufs f).2.1 i).data.length
        = (bufs i).data.length + (c.filter (fun x => f x = i)).length := by
      intro i
      have h := ppFold_router preferred f c bufs i
      have := congrArg List.length h
      simpa [List.length_append] using this
    calc (∑ i ∈ Finset.range n,
          ((flushedFor (pushPartitioned preferred c bufs f).2.2 i).length
            + ((pushPartitioned preferred c bufs f).2.1 i).data.length))
        = ∑ i ∈ Finset.range n,
            ((bufs i).data.length + (c.filter (fun x => f x = i)).length) :=
          Finset.sum_congr rfl (fun i _ => hlen i)
      _ = (∑ i ∈ Finset.range n, (bufs i).data.length)
            + ∑ i ∈ Finset.range n, (c.filter (fun x => f x = i)).length :=
          Finset.sum_add_distrib
      _ = (∑ i ∈ Finset.range n, (bufs i).data.length) + c.length := by
          rw [sum_filter_length f n c hf]
  · intro p x s hc
    intro g b
    refine ⟨?_, ?_, ?_⟩
    · subst hc
      exact ppFold_decompose preferred f p x s bufs
    · exact (ppStep_flush_iff preferred f g x).1
    · exact (ppStep_flush_iff preferred f g x).2

/-- Witness for C4: partitioning `[0, 1, 2, 3, 4, 5]` by parity into two
fresh buffers with preferred capacity 2. -/
theorem push_partitioned_spec_witness :
    (∀ x ∈ [0, 1, 2, 3, 4, 5], x % 2 < 2) ∧
    ((pushPartitioned 2 [0, 1, 2, 3, 4, 5] (fun _ => Buf.mk 0 [])
        (fun x => x % 2)).1 = [] ∧
    (∀ i, flushedFor (pushPartitioned 2 [0, 1, 2, 3, 4, 5]
          (fun _ => Buf.mk 0 []) (fun x => x % 2)).2.2 i
        ++ ((pushPartitioned 2 [0, 1, 2, 3, 4, 5] (fun _ => Buf.mk 0 [])
          (fun x => x % 2)).2.1 i).data
      = ((fun _ => Buf.mk 0 []) i).data
        ++ [0, 1, 2, 3, 4, 5].filter (fun x => x % 2 = i)) ∧
    (∀ e ∈ (pushPartitioned 2 [0, 1, 2, 3, 4, 5] (fun _ => Buf.mk 0 [])
        (fun x => x % 2)).2.2, e.2.2.length = e.2.1) ∧
    ((∑ i ∈ Finset.range 2,
        ((flushedFor (pushPartitioned 2 [0, 1, 2, 3, 4, 5]
            (fun _ => Buf.mk 0 []) (fun x => x % 2)).2.2 i).length
          + ((pushPartitioned 2 [0, 1, 2, 3, 4, 5] (fun _ => Buf.mk 0 [])
            (fun x => x % 2)).2.1 i).data.length))
      = (∑ i ∈ Finset.range 2, ((fun _ => Buf.mk (α := Nat) 0 []) i).data.length)
        + [0, 1, 2, 3, 4, 5].length) ∧
    (∀ p x s, [0, 1, 2, 3, 4, 5] = p ++ x :: s →
      let g := (p.foldl (ppFold 2 (fun y => y % 2))
        ((fun _ => Buf.mk 0 []), [])).1
      let b := ((g (x % 2)).ensureCapacity 2).vecPush x
      ((pushPartitioned 2 [0, 1, 2, 3, 4, 5] (fun _ => Buf.mk 0 [])
          (fun y => y % 2)).2.2
        = (p.foldl (ppFold 2 (fun y => y % 2)) ((fun _ => Buf.mk 0 []), [])).2
          ++ (ppStep 2 (fun y => y % 2) g x).2
          ++ (s.foldl (ppFold 2 (fun y => y % 2))
              ((ppStep 2 (fun y => y % 2) g x).1, [])).2) ∧
      ((ppStep 2 (fun y => y % 2) g x).2 = [(x % 2, b.cap, b.data)]
        ↔ b.data.length = b.cap) ∧
      ((ppStep 2 (fun y => y % 2) g x).2 = [] ↔ ¬ b.data.length = b.cap))) :=
  ⟨by decide,
    push_partitioned_spec 2 [0, 1, 2, 3, 4, 5] (fun _ => Buf.mk 0 [])
      (fun x => x % 2) 2 (by decide)⟩

/-- C10: the unit container and the `usize` container report `len() == 1`,
`is_empty() == false`, and `hollow()` yields `()`; consequently the
consume-side counter treats a bundle carrying such a container as non-empty
(returns `Some` and records `+1` at its timestamp) and the produce-side
counter accounts exactly one record per such bundle, always forwarding it. -/
theorem unit_usize_container_spec (u : Unit) (n : Nat) (t : Nat)
    (consumed : ChangeBatch Nat) (st : CounterCore Nat Unit)
    (stu : CounterCore Nat Nat) (b : Bundle Nat Unit) (b2 : Bundle Nat Nat) :
    unit_len u = 1 ∧ unit_is_empty u = false ∧ unit_hollow u = () ∧
    usize_len n = 1 ∧ usize_is_empty n = false ∧ usize_hollow n = () ∧
    (pullCounterNext unit_len consumed (some b)
      = (some b, consumed.update b.time 1)) ∧
    (pullCounterNext usize_len consumed (some b2)
      = (some b2, consumed.update b2.time 1)) ∧
    ((CounterCore.push unit_len st (some b)).produced.net t
      = st.produced.net t + (if b.time = t then 1 else 0)) ∧
    ((CounterCore.push unit_len st (some b)).pushee = st.pushee ++ [some b]) ∧
    ((CounterCore.push usize_len stu (some b2)).produced.net t
      = stu.produced.net t + (if b2.time = t then 1 else 0)) ∧
    ((CounterCore.push usize_len stu (some b2)).pushee
      = stu.pushee ++ [some b2]) := by
  refine ⟨rfl, rfl, rfl, rfl, rfl, rfl, rfl, rfl, ?_, ?_, ?_, ?_⟩
  · exact (counterCore_push_spec unit_len st b t).1
  · exact (counterCore_push_spec unit_len st b t).2.1
  · exact (counterCore_push_spec usize_len stu b2 t).1
  · exact (counterCore_push_spec usize_len stu b2 t).2.1

end Timely
